import Mathlib

/-!
Shallow embedding of `src/apprise/plugins/twitter.py` (class `NotifyTwitter`)
and proofs about its dispatch pipeline: rate limiting, attachment upload,
tweet batching, direct-message fan-out, identity lookup with caching, and
URL round-tripping.
-/

set_option autoImplicit false

namespace Twitter

/-! ## Python numeric/string helpers used by the embedding -/

/-- Decimal digit test, as used by Python `int()` parsing. -/
def isPyDigit (c : Char) : Bool := '0' ≤ c && c ≤ '9'

/-- Value of a run of decimal digits. -/
def digitsToNat (l : List Char) : Nat :=
  l.foldl (fun n c => n * 10 + (c.toNat - '0'.toNat)) 0

/-- Python `int(s)` on a decimal string: optional surrounding whitespace,
optional sign, then a non-empty digit run; anything else raises `ValueError`
(modelled as `none`). -/
def pyIntOfChars (l : List Char) : Option Int :=
  let l1 := l.dropWhile Char.isWhitespace
  let signAndRest : Int × List Char :=
    match l1 with
    | '-' :: r => (-1, r)
    | '+' :: r => (1, r)
    | _ => (1, l1)
  let ds := signAndRest.2.takeWhile isPyDigit
  let rest := signAndRest.2.dropWhile isPyDigit
  if ds = [] then none
  else if rest.dropWhile Char.isWhitespace ≠ [] then none
  else some (signAndRest.1 * (digitsToNat ds : Int))

/-- Python `int(x)` where `x` is an optional header string: `int(None)`
raises `TypeError` (modelled as `none`), otherwise parse the string. -/
def pyInt (s : Option String) : Option Int :=
  match s with
  | none => none
  | some s => pyIntOfChars s.data

/-! ## RateLimiter state (`ratelimit_remaining` / `ratelimit_reset`)

Instants and durations are modelled as rationals (seconds). -/

/-- The two rate-limit tracking fields of `NotifyTwitter`. -/
structure RateState where
  ratelimit_remaining : Int
  ratelimit_reset : ℚ
deriving DecidableEq

/-- The throttle-wait computation at the top of `_fetch` (lines 730-745):
wait only when the remaining counter is exactly 0 and `now` is before the
stored reset instant; the wait is `(reset - now) + 0.5` seconds. -/
def computeWait (st : RateState) (now : ℚ) : Option ℚ :=
  if st.ratelimit_remaining = 0 then
    if now < st.ratelimit_reset then some (st.ratelimit_reset - now + 1/2) else none
  else none

/-- Modelled from the spec: `NotifyBase.throttle` (not under `src/`) blocks
the caller for the supplied wait duration; with no wait supplied and
`request_rate_per_sec = 0` it imposes no delay. -/
def throttleDelay (wait : Option ℚ) : ℚ := wait.getD 0

/-- The rate-limit header capture in `_fetch` (lines 792-804).  Python
executes the two assignments sequentially inside one `try`: if the
`remaining` header fails to parse nothing is assigned, but if `remaining`
parses and `reset` then fails, `ratelimit_remaining` has already been
overwritten. -/
def updateRatelimit (st : RateState) (hRemaining hReset : Option String) : RateState :=
  match pyInt hRemaining with
  | none => st
  | some rem =>
    match pyInt hReset with
    | none => { st with ratelimit_remaining := rem }
    | some rs => { ratelimit_remaining := rem, ratelimit_reset := (rs : ℚ) }

/-- The parts of an HTTP response that `_fetch` inspects for rate limiting. -/
structure HttpResponse where
  status_code : Nat
  x_rate_limit_remaining : Option String
  x_rate_limit_reset : Option String
deriving DecidableEq

/-- Response phase of `_fetch` (lines 766-832): a transport exception
(`none`) yields `(False, st)` untouched; a non-200 status returns early with
`(False, st)` before the header capture; only a 200 response reaches the
rate-limit update. -/
def fetchResult (st : RateState) (r : Option HttpResponse) : Bool × RateState :=
  match r with
  | none => (false, st)
  | some r =>
    if r.status_code ≠ 200 then (false, st)
    else (true, updateRatelimit st r.x_rate_limit_remaining r.x_rate_limit_reset)

/-- Observable events of one `_fetch` call, in program order. -/
inductive FetchEvent where
  | throttle (wait : Option ℚ)
  | request (url : String)
deriving DecidableEq

/-- One `_fetch` call (lines 687-832): compute the wait, throttle, then
issue the request; the response (or transport failure) determines the
result and the new rate state. -/
def fetch (st : RateState) (now : ℚ) (url : String) (r : Option HttpResponse) :
    (Bool × RateState) × List FetchEvent :=
  (fetchResult st r,
    [FetchEvent.throttle (computeWait st now), FetchEvent.request url])

/-! ## Tweet batch planning (`_send_tweet`, lines 422-466) -/

/-- The fields of an upload-response dict that the batching loop reads. -/
structure MediaAttachment where
  media_id : String
  file_mime : String
deriving DecidableEq

/-- ASCII lower-casing of one character, as `re.I` effectively applies. -/
def asciiLower (c : Char) : Char :=
  if 'A' ≤ c ∧ c ≤ 'Z' then Char.ofNat (c.toNat + 32) else c

/-- ASCII lower-casing of a character list. -/
def lowerChars (l : List Char) : List Char := l.map asciiLower

/-- `re.match(r"^image/(png|jpe?g)", mime, re.I)`: case-insensitive prefix
match for the batchable (non-GIF-class) image types. -/
def isNonGifImage (mime : String) : Bool :=
  let m := lowerChars mime.data
  "image/png".data.isPrefixOf m || "image/jpeg".data.isPrefixOf m
    || "image/jpg".data.isPrefixOf m

/-- The batching loop of `_send_tweet` (lines 429-457): append the current
media id to the open batch, then close the batch when the just-appended
attachment is not a batchable image or the batch has reached `batch_size`;
a non-empty trailing batch is closed at the end. -/
def tweetBatchesAux (batch_size : Nat) :
    List MediaAttachment → List String → List (List String)
  | [], batch => if batch.isEmpty then [] else [batch]
  | a :: rest, batch =>
    let batch' := batch ++ [a.media_id]
    if isNonGifImage a.file_mime = false ∨ batch_size ≤ batch'.length then
      batch' :: tweetBatchesAux batch_size rest []
    else
      tweetBatchesAux batch_size rest batch'

/-- `batch_size` selection (lines 422-425) plus the batching loop:
size 1 when batching is disabled, else 4 (`__tweet_non_gif_images_batch`). -/
def tweetBatches (batchFlag : Bool) (attachments : List MediaAttachment) :
    List (List String) :=
  tweetBatchesAux (if batchFlag then 4 else 1) attachments []

/-! ## Send loops (`_send_tweet` lines 468-516, `_send_dm` lines 580-602) -/

/-- The per-payload send loop of `_send_tweet`: each payload is sent via
`_fetch`; a failure sets `has_error` and the loop continues; the method
returns `not has_error`.  The `Bool` list abstracts the `postokay` outcome
of each `_fetch` in order; the `Nat` counts issued sends. -/
def sendTweetLoop : List Bool → Bool → Nat → Bool × Nat
  | [], has_error, sent => (!has_error, sent)
  | ok :: rest, has_error, sent => sendTweetLoop rest (has_error || !ok) (sent + 1)

/-- Result and send count of the `_send_tweet` send loop. -/
def sendTweetResult (outcomes : List Bool) : Bool × Nat :=
  sendTweetLoop outcomes false 0

/-- The nested send loop of `_send_dm`: for each payload, for each resolved
target, send via `_fetch`; failures set `has_error` and the loops continue. -/
def sendDmAux {α β : Type} (ok : α → β → Bool) (targets : List β) :
    List α → Bool → Nat → Bool × Nat
  | [], has_error, sent => (!has_error, sent)
  | p :: rest, has_error, sent =>
    let inner := targets.foldl
      (fun (acc : Bool × Nat) t => (acc.1 || !(ok p t), acc.2 + 1)) (has_error, sent)
    sendDmAux ok targets rest inner.1 inner.2

/-- Result and send count of the `_send_dm` send loop. -/
def sendDmResult {α β : Type} (ok : α → β → Bool) (payloads : List α)
    (targets : List β) : Bool × Nat :=
  sendDmAux ok targets payloads false 0

/-! ## Attachment upload phase of `send` (lines 308-388) -/

/-- The facets of an attachment object that `send` inspects.  `accessible`
is the truthiness check `if not attachment` (the download/verify check of
the attachment collaborator). -/
structure Attachment where
  accessible : Bool
  mimetype : String
  name : Option String
  path : String
deriving DecidableEq

/-- Outcome of the media-upload `_fetch`: `ok` is `postokay`, `media_id` is
`response.get("media_id")` when the response is a dict holding one. -/
structure UploadResponse where
  ok : Bool
  media_id : Option String
deriving DecidableEq

/-- `re.match(r"^image/.*", mime, re.I)`: case-insensitive `image/` prefix. -/
def isImageMime (mime : String) : Bool :=
  "image/".data.isPrefixOf (lowerChars mime.data)

/-- Zero padding, as in Python format `{n:03}`. -/
def padZeros (w : Nat) (n : Nat) : String :=
  let s := toString n
  String.mk (List.replicate (w - s.length) '0') ++ s

/-- The upload descriptor accumulated into `attachments` (response dict
updated with `file_name` / `file_mime` / `file_path`). -/
structure UploadDescriptor where
  media_id : String
  file_name : String
  file_mime : String
  file_path : String
deriving DecidableEq

/-- The attachment loop of `send` (lines 314-388), `no` counting from 1:
an inaccessible attachment or a failed upload makes the whole method
`return False` (`none`); a non-`image/*` MIME type or an upload response
without a `media_id` is skipped with `continue`.  Also returns the number
of upload requests issued. -/
def uploadAttachments (upload : Attachment → UploadResponse) :
    Nat → List Attachment → Option (List UploadDescriptor) × Nat
  | _, [] => (some [], 0)
  | no, a :: rest =>
    if a.accessible = false then (none, 0)
    else if isImageMime a.mimetype = false then uploadAttachments upload (no + 1) rest
    else
      let r := upload a
      if r.ok = false then (none, 1)
      else
        let filename := a.name.getD ("file" ++ padZeros 3 no ++ ".dat")
        match r.media_id with
        | none =>
          let next := uploadAttachments upload (no + 1) rest
          (next.1, next.2 + 1)
        | some mid =>
          let next := uploadAttachments upload (no + 1) rest
          (next.1.map (fun ds =>
            { media_id := mid, file_name := filename,
              file_mime := a.mimetype, file_path := a.path } :: ds), next.2 + 1)

/-! ## Target validation (`__init__` lines 269-292) and `send` entry -/

/-- Characters accepted by the `user` group of `IS_USER`:
`[A-Z0-9_]` under `re.I`. -/
def isUserChar (c : Char) : Bool := c.isAlphanum || c = '_'

/-- `IS_USER.match(target)` for `IS_USER = ^\s*@?(?P<user>[A-Z0-9_]+)$`
(case-insensitive); returns the `user` group.  Python `$` also matches just
before one trailing newline. -/
def isUserGroup (s : String) : Option String :=
  let l := s.data.dropWhile Char.isWhitespace
  let l := match l with | '@' :: r => r | _ => l
  let user := l.takeWhile isUserChar
  let rest := l.dropWhile isUserChar
  if user = [] then none
  else if rest = [] ∨ rest = ['\n'] then some (String.mk user)
  else none

/-- Modelled from the spec: `parse_list` (not under `src/`) deduplicates the
requested handles, keeping first occurrences in order. -/
def parse_list {α : Type} [DecidableEq α] : List α → List α
  | [] => []
  | a :: rest => a :: (parse_list rest).filter (· ≠ a)

/-- The target loop of `__init__` (lines 266-286): collect the `user` group
of every matching target, flag an error for every non-matching one; if
there was an error and nothing was collected, `self.targets = None` (the
"invalid, notify no one" sentinel, distinct from the empty list meaning
"notify self"). -/
def initTargets (targets : List String) : Option (List String) :=
  let step := (parse_list targets).foldl
    (fun (acc : Bool × List String) t =>
      match isUserGroup t with
      | some u => (acc.1, acc.2 ++ [u])
      | none => (true, acc.2)) (false, [])
  if step.1 = true ∧ step.2 = [] then none else some step.2

/-- The recipient-resolution choice of `_send_dm` (lines 546-551): with an
empty target list look up ourselves (`_whoami`), otherwise look up the
explicit targets (`_user_lookup`). -/
inductive DmLookup where
  | whoami
  | lookup (names : List String)
deriving DecidableEq

/-- `_send_dm` target choice: `self._whoami(...) if not len(self.targets)
else self._user_lookup(self.targets, ...)`. -/
def dmTargetChoice (targets : List String) : DmLookup :=
  if targets.length = 0 then DmLookup.whoami else DmLookup.lookup targets

/-- The skeleton of `send` (lines 294-398): the `None` target sentinel
short-circuits to `False` with no network traffic; otherwise the
attachment phase runs, an aborted upload yields `False`, and the
mode handler produces the final result.  The second component counts
issued HTTP requests. -/
def send (targets : Option (List String)) (attach : List Attachment)
    (upload : Attachment → UploadResponse)
    (handler : List UploadDescriptor → Bool × Nat) : Bool × Nat :=
  match targets with
  | none => (false, 0)
  | some _ =>
    let up := uploadAttachments upload 1 attach
    match up.1 with
    | none => (false, up.2)
    | some ds =>
      let hr := handler ds
      (hr.1, up.2 + hr.2)

/-- `__len__` (lines 893-896): `len(self.targets)` raises `TypeError` when
`self.targets` is the `None` sentinel; otherwise the target count, with 0
mapped to 1. -/
def twitterLen (targets : Option (List String)) : Except String Nat :=
  match targets with
  | none => Except.error "TypeError"
  | some ts => Except.ok (if 0 < ts.length then ts.length else 1)

/-! ## Identity resolution (`_whoami` lines 604-633, `_user_lookup` lines 635-685)

Python dicts keyed by screen name are modelled as association lists with
unique keys; `dictSet` is item assignment (replace in place or append) and
`dictUpdate` is `dict.update`. -/

/-- `d[k] = v`: replace the first (unique) binding in place, else append. -/
def dictSet {α β : Type} [DecidableEq α] : List (α × β) → α → β → List (α × β)
  | [], k, v => [(k, v)]
  | kv :: rest, k, v =>
    if kv.1 = k then (k, v) :: rest else kv :: dictSet rest k v

/-- `d.update(u)`: assign every binding of `u` into `d`, left to right. -/
def dictUpdate {α β : Type} [DecidableEq α] (d u : List (α × β)) : List (α × β) :=
  u.foldl (fun acc kv => dictSet acc kv.1 kv.2) d

/-- `d.get(k)` / `k in d`. -/
def dictGet {α β : Type} [DecidableEq α] (d : List (α × β)) (k : α) : Option β :=
  (d.find? (fun kv => kv.1 = k)).map (·.2)

/-- `range(0, len(names), 100)` slicing: the successive `names[i:i+100]`. -/
def chunks100 {α : Type} : List α → List (List α)
  | [] => []
  | a :: rest => (a :: rest).take 100 :: chunks100 ((a :: rest).drop 100)
  termination_by l => l.length
  decreasing_by
    simp only [List.length_drop]
    exact Nat.sub_lt (Nat.succ_pos _) (by norm_num)

/-- The batch loop of `_user_lookup` (lines 662-679): for each 100-name
slice issue one lookup; a failed or non-list response is skipped, otherwise
each returned entry is assigned into `results`.  The oracle `server` maps a
requested slice to `none` (failure / non-list) or its entries. -/
def lookupBatches {α : Type} [DecidableEq α]
    (server : List α → Option (List (α × Int))) :
    List (List α) → List (α × Int) → List (α × Int)
  | [], results => results
  | chunk :: rest, results =>
    match server chunk with
    | none => lookupBatches server rest results
    | some entries => lookupBatches server rest (dictUpdate results entries)

/-- `_user_lookup(screen_name, lazy)` over cache state `user_cache`
(`self._user_cache`): dedupe the names; when `lazy` and the cache is
non-empty, serve cached names from the cache and drop them from the lookup
list; with nothing left, return early (no requests, cache untouched);
otherwise run the batch loop and write `results` back into the cache.
Returns `(results, new cache, number of lookup requests issued)`. -/
def user_lookup {α : Type} [DecidableEq α]
    (server : List α → Option (List (α × Int)))
    (user_cache : List (α × Int)) (screen_name : List α) (lazy : Bool) :
    List (α × Int) × List (α × Int) × Nat :=
  let names0 := parse_list screen_name
  let results : List (α × Int) :=
    if lazy ∧ user_cache ≠ [] then
      user_cache.filter (fun kv => kv.1 ∈ names0)
    else []
  let names :=
    if lazy ∧ user_cache ≠ [] then
      names0.filter (fun n => dictGet results n = none)
    else names0
  if names.length = 0 then (results, user_cache, 0)
  else
    let finalResults := lookupBatches server (chunks100 names) results
    (finalResults, dictUpdate user_cache finalResults, (chunks100 names).length)

/-- `_whoami(lazy)` (lines 604-633) over the two caches: with `lazy` and a
populated self-cache return it; otherwise one GET whose successful outcome
`(name, id)` is stored in both caches; failure returns an empty mapping.
Returns `(results, new whoami cache, new user cache, requests issued)`. -/
def whoami {α : Type} [DecidableEq α]
    (server : Option (α × Int)) (whoami_cache : Option (List (α × Int)))
    (user_cache : List (α × Int)) (lazy : Bool) :
    List (α × Int) × Option (List (α × Int)) × List (α × Int) × Nat :=
  match lazy, whoami_cache with
  | true, some c => (c, some c, user_cache, 0)
  | _, _ =>
    match server with
    | none => ([], whoami_cache, user_cache, 1)
    | some (n, i) => ([(n, i)], some [(n, i)], dictUpdate user_cache [(n, i)], 1)

/-! ## Construction (`__init__` lines 200-292) -/

/-- Modelled from the spec: `validate_regex` (not under `src/`) strips the
value and fails on an empty/whitespace-only result, returning the stripped
string otherwise. -/
def pyStrip (l : List Char) : List Char :=
  ((l.dropWhile Char.isWhitespace).reverse.dropWhile Char.isWhitespace).reverse

/-- Modelled from the spec: credential validation — `None` or
empty-after-strip fails, otherwise the stripped value is kept. -/
def validateCredential (s : Option String) : Option String :=
  match s with
  | none => none
  | some s =>
    let t := pyStrip s.data
    if t = [] then none else some (String.mk t)

/-- `TWITTER_MESSAGE_MODES` (lines 60-63). -/
def TWITTER_MESSAGE_MODES : List String := ["dm", "tweet"]

/-- The constructed notifier state relevant to dispatch and serialization. -/
structure Notifier where
  ckey : String
  csecret : String
  akey : String
  asecret : String
  mode : String
  cache : Bool
  batch : Bool
  targets : Option (List String)
deriving DecidableEq

/-- Constructor arguments as they reach `__init__`. -/
structure InitArgs where
  ckey : Option String
  csecret : Option String
  akey : Option String
  asecret : Option String
  mode : Option String
  cache : Option Bool
  batch : Bool
  targets : List String

/-- `__init__` (lines 200-292): validate the four credentials, resolve the
mode by prefix match against `TWITTER_MESSAGE_MODES` (an empty or missing
mode falls back to the default `dm`; an unmatched mode raises), and parse
the targets into the list / `None`-sentinel state. -/
def construct (a : InitArgs) : Option Notifier :=
  match validateCredential a.ckey with
  | none => none
  | some ckey =>
  match validateCredential a.csecret with
  | none => none
  | some csecret =>
  match validateCredential a.akey with
  | none => none
  | some akey =>
  match validateCredential a.asecret with
  | none => none
  | some asecret =>
  let modeResolved : Option String :=
    match a.mode with
    | some m =>
      if m = "" then some "dm"
      else TWITTER_MESSAGE_MODES.find? (fun t => m.data.isPrefixOf t.data)
    | none => some "dm"
  match modeResolved with
  | none => none
  | some mode =>
    some { ckey := ckey, csecret := csecret, akey := akey, asecret := asecret,
           mode := mode, cache := a.cache.getD true, batch := a.batch,
           targets := initTargets a.targets }

/-! ## URL serialization (`url`, lines 856-891) and parsing (`parse_url`,
lines 898-956)

URLs are worked with as character lists.  The quoting/unquoting and generic
URL-splitting helpers live outside `src/` and are modelled from the spec's
description of the serialized endpoint form. -/

/-- Characters that percent-encoding leaves as-is (RFC 3986 unreserved). -/
def isUnreservedChar (c : Char) : Bool :=
  c.isAlphanum || c = '_' || c = '.' || c = '-' || c = '~'

/-- Upper-case hex digit of a value below 16. -/
def hexDigit (n : Nat) : Char :=
  if n < 10 then Char.ofNat ('0'.toNat + n) else Char.ofNat ('A'.toNat + (n - 10))

/-- `%XX` escape of one byte. -/
def percentEncodeByte (b : Nat) : List Char :=
  ['%', hexDigit (b / 16), hexDigit (b % 16)]

/-- UTF-8 bytes of one character. -/
def utf8Bytes (c : Char) : List Nat :=
  let n := c.toNat
  if n < 0x80 then [n]
  else if n < 0x800 then [0xC0 + n / 0x40, 0x80 + n % 0x40]
  else if n < 0x10000 then
    [0xE0 + n / 0x1000, 0x80 + n / 0x40 % 0x40, 0x80 + n % 0x40]
  else
    [0xF0 + n / 0x40000, 0x80 + n / 0x1000 % 0x40, 0x80 + n / 0x40 % 0x40,
      0x80 + n % 0x40]

/-- Modelled from the spec: `quote(s, safe=...)` — percent-encode every
character that is neither unreserved nor in `safe`. -/
def pyQuote (safe : List Char) (l : List Char) : List Char :=
  l.flatMap (fun c =>
    if isUnreservedChar c || safe.contains c then [c]
    else (utf8Bytes c).flatMap percentEncodeByte)

/-- Modelled from the spec: `quote_plus` as used when form-encoding query
parameters — a space becomes `+`, everything else as `pyQuote`. -/
def pyQuotePlus (l : List Char) : List Char :=
  l.flatMap (fun c =>
    if c = ' ' then ['+']
    else if isUnreservedChar c then [c]
    else (utf8Bytes c).flatMap percentEncodeByte)

/-- Hex digit value. -/
def hexVal (c : Char) : Option Nat :=
  if '0' ≤ c ∧ c ≤ '9' then some (c.toNat - '0'.toNat)
  else if 'a' ≤ c ∧ c ≤ 'f' then some (c.toNat - 'a'.toNat + 10)
  else if 'A' ≤ c ∧ c ≤ 'F' then some (c.toNat - 'A'.toNat + 10)
  else none

/-- Modelled from the spec: `unquote` — decode `%XX` escapes (byte by
byte), leaving malformed escapes untouched. -/
def pyUnquote : List Char → List Char
  | [] => []
  | '%' :: a :: b :: rest =>
    match hexVal a, hexVal b with
    | some x, some y => Char.ofNat (16 * x + y) :: pyUnquote rest
    | _, _ => '%' :: pyUnquote (a :: b :: rest)
  | c :: rest => c :: pyUnquote rest

/-- Modelled from the spec: `unquote_plus` — `+` becomes a space, then
`%XX` escapes are decoded. -/
def pyUnquotePlus (l : List Char) : List Char :=
  pyUnquote (l.map (fun c => if c = '+' then ' ' else c))

/-- Split on every occurrence of `sep` (like `str.split(sep)`): keeps empty
fields, never returns an empty field list. -/
def splitSep (sep : Char) : List Char → List (List Char)
  | [] => [[]]
  | c :: rest =>
    match splitSep sep rest with
    | [] => [[]]
    | f :: fs => if c = sep then [] :: f :: fs else (c :: f) :: fs

/-- Split at the first occurrence of `sep`, if any. -/
def splitFirst (sep : Char) : List Char → Option (List Char × List Char)
  | [] => none
  | c :: rest =>
    if c = sep then some ([], rest)
    else (splitFirst sep rest).map (fun p => (c :: p.1, p.2))

/-- `NotifyTwitter.split_path` (modelled from the spec: split the full path
on `/`, drop empty segments, unquote each token). -/
def split_path (p : List Char) : List (List Char) :=
  ((splitSep '/' p).filter (fun t => t ≠ [])).map pyUnquote

/-- Query-string dictionary: `k=v` pairs unquoted (plus-aware); a bare key
gets an empty value. -/
def parseQsd (q : List Char) : List (List Char × List Char) :=
  (splitSep '&' q).filterMap (fun kv =>
    match splitFirst '=' kv with
    | some p => some (pyUnquotePlus p.1, pyUnquotePlus p.2)
    | none => if kv = [] then none else some (pyUnquotePlus kv, []))

/-- Dictionary lookup over parsed query pairs (later keys overwrite). -/
def qsdGet (qsd : List (List Char × List Char)) (k : List Char) :
    Option (List Char) :=
  (qsd.reverse.find? (fun kv => kv.1 = k)).map (·.2)

/-- What the generic URL parser hands to `NotifyTwitter.parse_url`. -/
structure BaseResults where
  schema : List Char
  host : List Char
  user : Option (List Char)
  tokens : List (List Char)
  qsd : List (List Char × List Char)

/-- Modelled from the spec: the generic URL parser (`NotifyBase.parse_url`,
not under `src/`) splits `schema://netloc/path?query`, separating a
`user@` prefix from the netloc, tokenizing the path via `split_path` and
parsing the query dictionary. -/
def parseUrlBase (u : List Char) : Option BaseResults :=
  match splitFirst ':' u with
  | none => none
  | some (schema, rest) =>
    match rest with
    | '/' :: '/' :: body =>
      let bodyQ : List Char × List Char :=
        match splitFirst '?' body with
        | some p => p
        | none => (body, [])
      let netlocPath : List Char × List Char :=
        match splitFirst '/' bodyQ.1 with
        | some p => p
        | none => (bodyQ.1, [])
      let userHost : Option (List Char) × List Char :=
        match splitFirst '@' netlocPath.1 with
        | none => (none, netlocPath.1)
        | some p => (some p.1, p.2)
      some { schema := schema, host := userHost.2, user := userHost.1,
             tokens := split_path netlocPath.2, qsd := parseQsd bodyQ.2 }
    | _ => none

/-- Modelled from the spec: `parse_bool` (not under `src/`) — affirmative
strings parse true, negative strings parse false, anything else takes the
default. -/
def parse_bool (s : String) (dflt : Bool) : Bool :=
  let t := String.mk (lowerChars s.data)
  if t ∈ ["yes", "y", "true", "t", "1", "on", "enable", "enabled"] then true
  else if t ∈ ["no", "n", "false", "f", "0", "off", "disable", "disabled"] then false
  else dflt

/-- `NotifyTwitter.parse_url` (lines 898-956) on the generic results:
consumer key from the host, the next three path tokens as the remaining
secrets, mode from the query (else the `tweet` schema prefix), targets from
the URL user, the leftover path tokens and the `to` parameter, and the
cache/batch flags from the query. -/
def twitterParseUrl (u : List Char) : Option InitArgs :=
  (parseUrlBase u).map (fun r =>
    let tokens := r.tokens
    let mode : Option String :=
      match qsdGet r.qsd "mode".data with
      | some v =>
        if v ≠ [] then some (String.mk (pyUnquote v))
        else if "tweet".data.isPrefixOf r.schema then some "tweet" else none
      | none =>
        if "tweet".data.isPrefixOf r.schema then some "tweet" else none
    let targets : List String :=
      ((match r.user with
        | some us => [String.mk us]
        | none => []) ++ (tokens.drop 3).map String.mk)
      ++ (match qsdGet r.qsd "to".data with
          | some v =>
            if v ≠ [] then
              ((splitSep ',' v).filter (fun t => t ≠ [])).map String.mk
            else []
          | none => [])
    let cache : Option Bool :=
      match qsdGet r.qsd "cache".data with
      | some v => if v ≠ [] then some (parse_bool (String.mk v) true) else none
      | none => none
    let batch : Bool :=
      match qsdGet r.qsd "batch".data with
      | some v => parse_bool (String.mk v) false
      | none => true
    { ckey := some (String.mk (pyUnquote r.host)),
      csecret := (tokens.get? 0).map String.mk,
      akey := (tokens.get? 1).map String.mk,
      asecret := (tokens.get? 2).map String.mk,
      mode := mode, cache := cache, batch := batch, targets := targets })

/-- `"yes" if flag else "no"` (lines 862-863). -/
def yesno (b : Bool) : List Char := if b then "yes".data else "no".data

/-- `"/".join` over character lists. -/
def joinSlash : List (List Char) → List Char
  | [] => []
  | [p] => p
  | p :: q :: rest => p ++ '/' :: joinSlash (q :: rest)

/-- `url()` (lines 856-891): serialize over the first secure protocol `x`,
the four quoted secrets as host + path, the `@`-prefixed quoted targets
(empty when the target state is falsy), and the mode/batch/cache query
parameters (form-encoded). -/
def buildUrl (n : Notifier) : List Char :=
  let targetsPart : List Char :=
    match n.targets with
    | some ts =>
      if ts ≠ [] then
        joinSlash (ts.map (fun t => pyQuote ['@'] ('@' :: t.data)))
      else []
    | none => []
  "x://".data
    ++ pyQuote [] n.ckey.data ++ ['/']
    ++ pyQuote [] n.csecret.data ++ ['/']
    ++ pyQuote [] n.akey.data ++ ['/']
    ++ pyQuote [] n.asecret.data ++ ['/']
    ++ targetsPart
    ++ ['?'] ++ "mode=".data ++ pyQuotePlus n.mode.data
    ++ "&batch=".data ++ yesno n.batch
    ++ "&cache=".data ++ yesno n.cache

/-- Serialize, re-parse and re-construct: the round trip of C9. -/
def roundTrip (n : Notifier) : Option Notifier :=
  (twitterParseUrl (buildUrl n)).bind construct

/-! ## Send-loop lemmas -/

theorem sendTweetLoop_spec (outs : List Bool) (he : Bool) (s : Nat) :
    sendTweetLoop outs he s = (!he && outs.all id, s + outs.length) := by
  induction outs generalizing he s with
  | nil => simp [sendTweetLoop]
  | cons a rest ih =>
    rw [sendTweetLoop, ih]
    refine Prod.ext ?_ ?_
    · cases he <;> cases a <;> simp
    · simp only [List.length_cons]
      omega

theorem dmInnerFold_spec {α β : Type} (ok : α → β → Bool) (p : α)
    (ts : List β) (he : Bool) (s : Nat) :
    ts.foldl (fun (acc : Bool × Nat) t => (acc.1 || !(ok p t), acc.2 + 1)) (he, s)
      = (he || ts.any (fun t => !(ok p t)), s + ts.length) := by
  induction ts generalizing he s with
  | nil => simp
  | cons t rest ih =>
    rw [List.foldl_cons, ih]
    refine Prod.ext ?_ ?_
    · cases he <;> simp
    · simp only [List.length_cons]
      omega

theorem sendDmAux_spec {α β : Type} (ok : α → β → Bool) (ts : List β)
    (ps : List α) (he : Bool) (s : Nat) :
    sendDmAux ok ts ps he s
      = (!he && ps.all (fun p => ts.all (fun t => ok p t)),
         s + ps.length * ts.length) := by
  induction ps generalizing he s with
  | nil => simp [sendDmAux]
  | cons p rest ih =>
    rw [sendDmAux, dmInnerFold_spec, ih]
    refine Prod.ext ?_ ?_
    · simp only [List.all_cons]
      cases he <;> cases hp : ts.all (fun t => ok p t) <;>
        simp_all [List.all_eq_not_any_not]
    · simp only [List.length_cons]
      ring

/-! ## Claim theorems -/

/-- C1: the batch plan built in post (tweet) mode is claimed never to place
a GIF-class descriptor in the same group as any other descriptor, with
[PNG, GIF, PNG] under batching yielding groups [1,1,1].  The code closes
the batch only after appending the GIF, so the GIF rides with the
preceding PNG: the plan is [[PNG, GIF], [PNG]], sizes [2,1], contradicting
the claim and the code's own inline comment. -/
theorem C1_gif_grouped_with_preceding_png :
    tweetBatches true
      [{ media_id := "1", file_mime := "image/png" },
       { media_id := "2", file_mime := "image/gif" },
       { media_id := "3", file_mime := "image/png" }]
      = [["1", "2"], ["3"]] ∧
    (tweetBatches true
      [{ media_id := "1", file_mime := "image/png" },
       { media_id := "2", file_mime := "image/gif" },
       { media_id := "3", file_mime := "image/png" }]).map List.length
      ≠ [1, 1, 1] := by
  decide

/-- C2: in `_fetch`, the throttle step always precedes the HTTP request,
and the computed wait is positive exactly when the remaining counter is 0
and `now` is before the stored reset instant, in which case it equals
`(reset - now) + 0.5`; otherwise no wait is imposed. -/
theorem C2_throttle_before_request :
    ∀ (st : RateState) (now : ℚ) (url : String) (r : Option HttpResponse),
      (∀ i, (fetch st now url r).2.get? i = some (FetchEvent.request url) →
        ∃ j < i, (fetch st now url r).2.get? j
          = some (FetchEvent.throttle (computeWait st now))) ∧
      ((∃ w, computeWait st now = some w ∧ 0 < w) ↔
        (st.ratelimit_remaining = 0 ∧ now < st.ratelimit_reset)) ∧
      (st.ratelimit_remaining = 0 → now < st.ratelimit_reset →
        computeWait st now = some (st.ratelimit_reset - now + 1/2)) ∧
      (¬(st.ratelimit_remaining = 0 ∧ now < st.ratelimit_reset) →
        throttleDelay (computeWait st now) = 0) := by
  intro st now url r
  refine ⟨?_, ?_, ?_, ?_⟩
  · intro i hi
    match i with
    | 0 => simp [fetch] at hi
    | 1 => exact ⟨0, Nat.zero_lt_one, rfl⟩
    | n + 2 => simp [fetch] at hi
  · constructor
    · rintro ⟨w, hw, hpos⟩
      unfold computeWait at hw
      by_cases h1 : st.ratelimit_remaining = 0
      · by_cases h2 : now < st.ratelimit_reset
        · exact ⟨h1, h2⟩
        · simp [h1, h2] at hw
      · simp [h1] at hw
    · rintro ⟨h1, h2⟩
      refine ⟨st.ratelimit_reset - now + 1/2, ?_, by linarith⟩
      unfold computeWait
      rw [if_pos h1, if_pos h2]
  · intro h1 h2
    unfold computeWait
    rw [if_pos h1, if_pos h2]
  · intro h
    unfold computeWait throttleDelay
    split_ifs with h1 h2
    · exact absurd ⟨h1, h2⟩ h
    · rfl
    · rfl

/-- Witness for C2 at remaining = 0, reset = 10, now = 3: the request event
at index 1 is preceded by the throttle event, and the wait is
(10 - 3) + 0.5 = 15/2. -/
theorem C2_witness :
    (∃ j < 1, (fetch ⟨0, 10⟩ 3 "u" none).2.get? j
      = some (FetchEvent.throttle (computeWait ⟨0, 10⟩ 3))) ∧
    computeWait ⟨0, 10⟩ 3 = some (15/2) := by
  refine ⟨(C2_throttle_before_request ⟨0, 10⟩ 3 "u" none).1 1 rfl, ?_⟩
  rw [(C2_throttle_before_request ⟨0, 10⟩ 3 "u" none).2.2.1 rfl (by norm_num)]
  norm_num

/-- C3: in both send loops the dispatch result is true iff every individual
send succeeded, every sub-message is attempted (no early abort), and with
three sub-messages of which the second fails the result is false with all
three sent. -/
theorem C3_dispatch_aggregation :
    (∀ outcomes : List Bool,
      (sendTweetResult outcomes).1 = outcomes.all id ∧
      (sendTweetResult outcomes).2 = outcomes.length) ∧
    (∀ (ok : Nat → Nat → Bool) (payloads : List Nat) (targets : List Nat),
      (sendDmResult ok payloads targets).1
        = payloads.all (fun p => targets.all (fun t => ok p t)) ∧
      (sendDmResult ok payloads targets).2
        = payloads.length * targets.length) ∧
    sendTweetResult [true, false, true] = (false, 3) := by
  refine ⟨?_, ?_, by decide⟩
  · intro outcomes
    rw [sendTweetResult, sendTweetLoop_spec]
    exact ⟨by simp, by simp⟩
  · intro ok payloads targets
    rw [sendDmResult, sendDmAux_spec]
    exact ⟨by simp, by simp⟩

/-- C5 counterexample: a non-success (403) response carrying perfectly
parsable rate-limit headers leaves the rate state untouched, although
applying the header update would have changed it — the update is not
performed "whether the status is success or failure". -/
theorem C5_counterexample :
    fetchResult ⟨1, 7⟩ (some ⟨403, some "0", some "99"⟩) = (false, ⟨1, 7⟩) ∧
    updateRatelimit ⟨1, 7⟩ (some "0") (some "99") ≠ ⟨1, 7⟩ := by
  decide

/-- C5 amended: the rate-limit state is updated from the two rate-limit
headers only after a success (HTTP 200) response; a non-success status or a
transport failure leaves the state unchanged. -/
theorem C5_update_only_on_success :
    ∀ (st : RateState) (r : HttpResponse),
      (r.status_code = 200 →
        fetchResult st (some r)
          = (true, updateRatelimit st r.x_rate_limit_remaining
              r.x_rate_limit_reset)) ∧
      (r.status_code ≠ 200 → fetchResult st (some r) = (false, st)) ∧
      fetchResult st none = (false, st) := by
  intro st r
  refine ⟨?_, ?_, rfl⟩
  · intro h
    simp [fetchResult, h]
  · intro h
    simp [fetchResult, h]

/-- Witness for C5 at a success and a failure response. -/
theorem C5_witness :
    fetchResult ⟨1, 7⟩ (some ⟨200, some "5", some "99"⟩)
      = (true, updateRatelimit ⟨1, 7⟩ (some "5") (some "99")) ∧
    fetchResult ⟨1, 7⟩ (some ⟨403, some "5", some "99"⟩) = (false, ⟨1, 7⟩) :=
  ⟨(C5_update_only_on_success ⟨1, 7⟩ ⟨200, some "5", some "99"⟩).1 rfl,
   (C5_update_only_on_success ⟨1, 7⟩ ⟨403, some "5", some "99"⟩).2.1 (by decide)⟩

/-- C8 counterexample: a parsable remaining header together with an
unparsable reset header overwrites the remaining counter alone — the
update is not all-or-nothing. -/
theorem C8_counterexample :
    updateRatelimit ⟨1, 7⟩ (some "5") (some "zz")
      = { ratelimit_remaining := 5, ratelimit_reset := 7 } ∧
    updateRatelimit ⟨1, 7⟩ (some "5") (some "zz") ≠ ⟨1, 7⟩ := by
  decide

/-- C8 amended: if the remaining header is absent or unparsable the whole
state is left unchanged, but if it parses while the reset header does not,
the remaining counter alone is overwritten (partial update); only when both
parse are both fields overwritten. -/
theorem C8_update_sequential :
    ∀ (st : RateState) (hRem hRes : Option String),
      (pyInt hRem = none → updateRatelimit st hRem hRes = st) ∧
      (∀ rem, pyInt hRem = some rem → pyInt hRes = none →
        updateRatelimit st hRem hRes = { st with ratelimit_remaining := rem }) ∧
      (∀ rem rs, pyInt hRem = some rem → pyInt hRes = some rs →
        updateRatelimit st hRem hRes = ⟨rem, (rs : ℚ)⟩) := by
  intro st hRem hRes
  refine ⟨?_, ?_, ?_⟩
  · intro h
    simp [updateRatelimit, h]
  · intro rem h1 h2
    simp [updateRatelimit, h1, h2]
  · intro rem rs h1 h2
    simp [updateRatelimit, h1, h2]

/-- Witness for C8 on the three header configurations. -/
theorem C8_witness :
    updateRatelimit ⟨1, 7⟩ none (some "99") = ⟨1, 7⟩ ∧
    updateRatelimit ⟨1, 7⟩ (some "5") none
      = { ratelimit_remaining := 5, ratelimit_reset := 7 } ∧
    updateRatelimit ⟨1, 7⟩ (some "5") (some "99") = ⟨5, 99⟩ :=
  ⟨(C8_update_sequential ⟨1, 7⟩ none (some "99")).1 rfl,
   (C8_update_sequential ⟨1, 7⟩ (some "5") none).2.1 5 (by decide) rfl,
   (C8_update_sequential ⟨1, 7⟩ (some "5") (some "99")).2.2 5 99 (by decide)
     (by decide)⟩

/-- C4 counterexample: an attachment failing its accessibility check makes
the upload phase abort (`return False`): nothing is uploaded, the following
attachment is never processed, and the dispatch fails — it is not "skipped
with processing continuing". -/
theorem C4_counterexample :
    (uploadAttachments (fun _ => ⟨true, some "9"⟩) 1
      [⟨false, "image/png", some "a.png", "p"⟩,
       ⟨true, "image/png", some "b.png", "q"⟩]).1 = none ∧
    send (some []) [⟨false, "image/png", some "a.png", "p"⟩,
       ⟨true, "image/png", some "b.png", "q"⟩]
      (fun _ => ⟨true, some "9"⟩) (fun _ => (true, 1)) = (false, 0) := by
  decide

/-- C4 amended: an attachment with a non-`image/*` MIME type is skipped and
processing continues, and an upload whose response lacks a media identifier
is likewise skipped; but an attachment that fails its accessibility check,
or whose upload request fails, aborts the whole upload phase and the
dispatch returns failure. -/
theorem C4_upload_skip_or_abort :
    ∀ (upload : Attachment → UploadResponse) (no : Nat) (a : Attachment)
      (rest : List Attachment),
      (a.accessible = true → isImageMime a.mimetype = false →
        uploadAttachments upload no (a :: rest)
          = uploadAttachments upload (no + 1) rest) ∧
      (a.accessible = true → isImageMime a.mimetype = true →
        upload a = ⟨true, none⟩ →
        uploadAttachments upload no (a :: rest)
          = ((uploadAttachments upload (no + 1) rest).1,
             (uploadAttachments upload (no + 1) rest).2 + 1)) ∧
      (a.accessible = false →
        (uploadAttachments upload no (a :: rest)).1 = none) ∧
      (a.accessible = true → isImageMime a.mimetype = true →
        (upload a).ok = false →
        (uploadAttachments upload no (a :: rest)).1 = none) ∧
      (∀ (targets : List String)
        (handler : List UploadDescriptor → Bool × Nat) (attach : List Attachment),
        (uploadAttachments upload 1 attach).1 = none →
        (send (some targets) attach upload handler).1 = false) := by
  intro upload no a rest
  refine ⟨?_, ?_, ?_, ?_, ?_⟩
  · intro hacc hmime
    simp [uploadAttachments, hacc, hmime]
  · intro hacc hmime hup
    simp [uploadAttachments, hacc, hmime, hup]
  · intro hacc
    simp [uploadAttachments, hacc]
  · intro hacc hmime hfail
    simp [uploadAttachments, hacc, hmime, hfail]
  · intro targets handler attach h
    simp [send, h]

/-- Witness for C4: a text attachment is skipped, an id-less upload is
skipped but counted, an inaccessible attachment aborts, a failed upload
aborts, and an aborted phase fails `send`. -/
theorem C4_witness :
    uploadAttachments (fun _ => ⟨true, some "9"⟩) 1
        [⟨true, "text/plain", some "a.txt", "p"⟩]
      = uploadAttachments (fun _ => ⟨true, some "9"⟩) 2 [] ∧
    uploadAttachments (fun _ => ⟨true, none⟩) 1 [⟨true, "image/png", some "a.png", "p"⟩]
      = ((uploadAttachments (fun _ => ⟨true, none⟩) 2 []).1,
         (uploadAttachments (fun _ => ⟨true, none⟩) 2 []).2 + 1) ∧
    (uploadAttachments (fun _ => ⟨true, some "9"⟩) 1
        [⟨false, "image/png", some "a.png", "p"⟩]).1 = none ∧
    (uploadAttachments (fun _ => ⟨false, none⟩) 1
        [⟨true, "image/png", some "a.png", "p"⟩]).1 = none ∧
    (send (some []) [⟨false, "image/png", some "a.png", "p"⟩]
        (fun _ => ⟨true, some "9"⟩) (fun _ => (true, 1))).1 = false :=
  ⟨(C4_upload_skip_or_abort (fun _ => ⟨true, some "9"⟩) 1
      ⟨true, "text/plain", some "a.txt", "p"⟩ []).1 rfl (by decide),
   (C4_upload_skip_or_abort (fun _ => ⟨true, none⟩) 1
      ⟨true, "image/png", some "a.png", "p"⟩ []).2.1 rfl (by decide) rfl,
   (C4_upload_skip_or_abort (fun _ => ⟨true, some "9"⟩) 1
      ⟨false, "image/png", some "a.png", "p"⟩ []).2.2.1 rfl,
   (C4_upload_skip_or_abort (fun _ => ⟨false, none⟩) 1
      ⟨true, "image/png", some "a.png", "p"⟩ []).2.2.2.1 rfl (by decide) rfl,
   (C4_upload_skip_or_abort (fun _ => ⟨true, some "9"⟩) 1
      ⟨false, "image/png", some "a.png", "p"⟩ []).2.2.2.2 []
      (fun _ => (true, 1)) [⟨false, "image/png", some "a.png", "p"⟩] (by decide)⟩

/-- Every element of the deduplicated list comes from the original. -/
theorem mem_parse_list {α : Type} [DecidableEq α] (l : List α) (x : α) :
    x ∈ parse_list l → x ∈ l := by
  induction l with
  | nil => simp [parse_list]
  | cons a rest ih =>
    intro h
    rw [parse_list] at h
    rcases List.mem_cons.mp h with h | h
    · exact h ▸ List.mem_cons_self a rest
    · exact List.mem_cons_of_mem a (ih (List.mem_of_mem_filter h))

/-- The `__init__` target fold over only-invalid handles ends with the
error flag set and nothing collected. -/
theorem initTargets_fold_all_invalid (l : List String)
    (hall : ∀ t ∈ l, isUserGroup t = none) (b : Bool) :
    l.foldl (fun (acc : Bool × List String) t =>
      match isUserGroup t with
      | some u => (acc.1, acc.2 ++ [u])
      | none => (true, acc.2)) (b, [])
      = (b || !l.isEmpty, []) := by
  induction l generalizing b with
  | nil => simp
  | cons a rest ih =>
    rw [List.foldl_cons]
    simp only [hall a (List.mem_cons_self a rest)]
    rw [ih (fun t ht => hall t (List.mem_cons_of_mem a ht)) true]
    cases b <;> simp

/-- C6: the `None` sentinel makes `send` return false with no network
traffic; a non-empty all-invalid target list produces exactly that
sentinel; an empty target list parses to the empty-but-valid state, under
which DM mode resolves the self identity (`_whoami`) rather than looking
up users. -/
theorem C6_invalid_sentinel_vs_self :
    (∀ (attach : List Attachment) (upload : Attachment → UploadResponse)
      (handler : List UploadDescriptor → Bool × Nat),
      send none attach upload handler = (false, 0)) ∧
    (∀ input : List String, input ≠ [] → (∀ t ∈ input, isUserGroup t = none) →
      initTargets input = none) ∧
    initTargets [] = some [] ∧
    dmTargetChoice [] = DmLookup.whoami ∧
    (∀ ts : List String, ts ≠ [] → dmTargetChoice ts = DmLookup.lookup ts) := by
  refine ⟨fun _ _ _ => rfl, ?_, rfl, rfl, ?_⟩
  · intro input hne hall
    match hinput : input with
    | t0 :: rest =>
      unfold initTargets
      rw [initTargets_fold_all_invalid (parse_list (t0 :: rest))
        (fun t ht => hall t (mem_parse_list _ t ht)) false]
      simp [parse_list]
  · intro ts hne
    rw [dmTargetChoice, if_neg (by simpa using hne)]

/-- Witness for C6: two malformed handles yield the sentinel; a singleton
list is looked up rather than treated as self. -/
theorem C6_witness :
    initTargets ["%%", "a b"] = none ∧
    dmTargetChoice ["alice"] = DmLookup.lookup ["alice"] :=
  ⟨C6_invalid_sentinel_vs_self.2.1 ["%%", "a b"] (by decide) (by decide),
   C6_invalid_sentinel_vs_self.2.2.2.2 ["alice"] (by decide)⟩

/-! ## Chunking, dictionary and lookup lemmas for C7 -/

theorem map_fst_pair {α β : Type} (f : α → β) (l : List α) :
    (l.map (fun n => (n, f n))).map Prod.fst = l := by
  induction l with
  | nil => rfl
  | cons a r ih =>
    simp only [List.map_cons]
    rw [ih]

theorem chunks100_mem_length_le {α : Type} (l : List α) :
    ∀ c ∈ chunks100 l, c.length ≤ 100 := by
  induction l using chunks100.induct with
  | case1 => intro c hc; simp [chunks100] at hc
  | case2 a rest ih =>
    intro c hc
    rw [chunks100] at hc
    rcases List.mem_cons.mp hc with h | h
    · subst h
      simp only [List.length_take]
      exact Nat.min_le_left 100 _
    · exact ih c h

theorem chunks100_length {α : Type} (l : List α) :
    (chunks100 l).length = (l.length + 99) / 100 := by
  induction l using chunks100.induct with
  | case1 => simp [chunks100]
  | case2 a rest ih =>
    rw [chunks100, List.length_cons, ih]
    simp only [List.length_drop, List.length_cons]
    rcases Nat.le_total (rest.length + 1) 100 with h | h
    · have h1 : rest.length + 1 - 100 = 0 := by omega
      rw [h1]
      have h2 : (rest.length + 1 + 99) / 100 = 1 := by
        apply Nat.div_eq_of_lt_le <;> omega
      rw [h2]
    · have h1 : rest.length + 1 - 100 + 99 + 100 = rest.length + 1 + 99 := by
        omega
      rw [← h1, Nat.add_div_right _ (by norm_num)]

theorem chunks100_flatten {α : Type} (l : List α) : (chunks100 l).flatten = l := by
  induction l using chunks100.induct with
  | case1 => simp [chunks100]
  | case2 a rest ih =>
    rw [chunks100, List.flatten_cons, ih, List.take_append_drop]

theorem dictSet_fresh {α β : Type} [DecidableEq α] (d : List (α × β)) (k : α)
    (v : β) (h : ∀ kv ∈ d, kv.1 ≠ k) : dictSet d k v = d ++ [(k, v)] := by
  induction d with
  | nil => rfl
  | cons kv rest ih =>
    rw [dictSet, if_neg (h kv (List.mem_cons_self kv rest)), List.cons_append,
      ih (fun q hq => h q (List.mem_cons_of_mem kv hq))]

theorem dictUpdate_append {α β : Type} [DecidableEq α] (d u v : List (α × β)) :
    dictUpdate (dictUpdate d u) v = dictUpdate d (u ++ v) := by
  simp [dictUpdate, List.foldl_append]

theorem dictUpdate_fresh {α β : Type} [DecidableEq α] (u : List (α × β)) :
    ∀ (d : List (α × β)), (∀ p ∈ u, ∀ q ∈ d, q.1 ≠ p.1) →
    (u.map Prod.fst).Nodup → dictUpdate d u = d ++ u := by
  induction u with
  | nil => intro d _ _; simp [dictUpdate]
  | cons p rest ih =>
    intro d hd hu
    simp only [List.map_cons, List.nodup_cons] at hu
    have hset : dictSet d p.1 p.2 = d ++ [p] := by
      rw [dictSet_fresh d p.1 p.2
        (fun q hq => hd p (List.mem_cons_self p rest) q hq)]
    have hstep : dictUpdate d (p :: rest) = dictUpdate (d ++ [p]) rest := by
      simp [dictUpdate, hset]
    rw [hstep, ih (d ++ [p]) ?_ hu.2]
    · simp
    · intro r hr s hs
      rcases List.mem_append.mp hs with h | h
      · exact hd r (List.mem_cons_of_mem p hr) s h
      · have hs' : s = p := by simpa using h
        subst hs'
        intro hcontra
        exact hu.1 (hcontra ▸ List.mem_map_of_mem Prod.fst hr)

theorem dictGet_map_self {α : Type} [DecidableEq α] (f : α → Int)
    (names : List α) (n : α) (h : n ∈ names) :
    dictGet (names.map (fun m => (m, f m))) n = some (f n) := by
  induction names with
  | nil => simp at h
  | cons m rest ih =>
    by_cases hm : m = n
    · subst hm
      simp only [dictGet, List.map_cons]
      rw [List.find?_cons_of_pos _ (by simp)]
      rfl
    · rcases List.mem_cons.mp h with h' | h'
      · exact absurd h'.symm hm
      · have := ih h'
        simp only [dictGet, List.map_cons] at this ⊢
        rw [List.find?_cons_of_neg _ (by simpa using hm)]
        exact this

theorem lookupBatches_resolving {α : Type} [DecidableEq α] (f : α → Int)
    (chunks : List (List α)) :
    ∀ acc, lookupBatches (fun c => some (c.map (fun n => (n, f n)))) chunks acc
      = dictUpdate acc (chunks.flatten.map (fun n => (n, f n))) := by
  induction chunks with
  | nil => intro acc; simp [lookupBatches, dictUpdate]
  | cons c rest ih =>
    intro acc
    have hstep :
        lookupBatches (fun c => some (c.map (fun n => (n, f n)))) (c :: rest) acc
          = lookupBatches (fun c => some (c.map (fun n => (n, f n)))) rest
              (dictUpdate acc (c.map (fun n => (n, f n)))) := rfl
    rw [hstep, ih, dictUpdate_append, List.flatten_cons, List.map_append]

theorem parse_list_eq_self {α : Type} [DecidableEq α] (l : List α)
    (h : l.Nodup) : parse_list l = l := by
  induction l with
  | nil => rfl
  | cons a rest ih =>
    rw [List.nodup_cons] at h
    rw [parse_list, ih h.2, List.filter_eq_self.mpr]
    intro b hb
    simp only [ne_eq, decide_eq_true_eq]
    intro hcontra
    exact h.1 (hcontra ▸ hb)

/-- `_user_lookup` against an empty cache: the cache-serving branch is
skipped for either flag value. -/
theorem user_lookup_empty_cache {α : Type} [DecidableEq α]
    (server : List α → Option (List (α × Int))) (names : List α) (lazy : Bool) :
    user_lookup server [] names lazy =
      (if (parse_list names).length = 0 then (([] : List (α × Int)), [], 0)
       else (lookupBatches server (chunks100 (parse_list names)) [],
             dictUpdate [] (lookupBatches server (chunks100 (parse_list names)) []),
             (chunks100 (parse_list names)).length)) := by
  unfold user_lookup
  cases lazy <;> simp

/-- C7: lookups are issued in slices of at most 100 handles; 150 fresh
handles cost exactly 2 requests; with a fully-resolving server every
requested handle is resolved and written into the cache regardless of the
caller's cache flag; and a second lazy resolution of the same handles
issues no request at all. -/
theorem C7_user_lookup_batching :
    (∀ (names : List Nat), ∀ c ∈ chunks100 names, c.length ≤ 100) ∧
    (∀ (server : List Nat → Option (List (Nat × Int))) (lazy : Bool),
      (user_lookup server [] (List.range 150) lazy).2.2 = 2) ∧
    (∀ (f : Nat → Int) (names : List Nat) (lazy : Bool),
      names ≠ [] → names.Nodup →
      (user_lookup (fun c => some (c.map (fun n => (n, f n)))) [] names lazy).1
        = names.map (fun n => (n, f n)) ∧
      (user_lookup (fun c => some (c.map (fun n => (n, f n)))) [] names lazy).2.1
        = names.map (fun n => (n, f n)) ∧
      (user_lookup (fun c => some (c.map (fun n => (n, f n))))
        (names.map (fun n => (n, f n))) names true).2.2 = 0) := by
  refine ⟨fun names => chunks100_mem_length_le names, ?_, ?_⟩
  · intro server lazy
    rw [user_lookup_empty_cache, parse_list_eq_self _ (List.nodup_range 150)]
    rw [if_neg (by simp)]
    simp [chunks100_length, List.length_range]
  · intro f names lazy hne hnodup
    have hresolve :
        lookupBatches (fun c => some (c.map (fun n => (n, f n))))
          (chunks100 names) []
          = names.map (fun n => (n, f n)) := by
      rw [lookupBatches_resolving, chunks100_flatten]
      rw [dictUpdate_fresh _ [] (by simp) ?_]
      · simp
      · rw [map_fst_pair]
        exact hnodup
    have hfirst :
        user_lookup (fun c => some (c.map (fun n => (n, f n)))) [] names lazy
          = (names.map (fun n => (n, f n)),
             names.map (fun n => (n, f n)),
             (chunks100 names).length) := by
      rw [user_lookup_empty_cache, parse_list_eq_self _ hnodup]
      rw [if_neg (by simpa using hne)]
      rw [hresolve, dictUpdate_fresh _ [] (by simp) ?_]
      · simp
      · rw [map_fst_pair]
        exact hnodup
    refine ⟨by rw [hfirst], by rw [hfirst], ?_⟩
    unfold user_lookup
    rw [parse_list_eq_self _ hnodup]
    have hcne : names.map (fun n => (n, f n)) ≠ [] := by
      simpa using hne
    have hfilter :
        (names.map (fun n => (n, f n))).filter (fun kv => kv.1 ∈ names)
          = names.map (fun n => (n, f n)) := by
      apply List.filter_eq_self.mpr
      intro kv hkv
      rcases List.mem_map.mp hkv with ⟨n, hn, hkv'⟩
      subst hkv'
      simpa using hn
    have hnames :
        names.filter (fun n =>
          dictGet ((names.map (fun m => (m, f m))).filter
            (fun kv => kv.1 ∈ names)) n = none) = [] := by
      apply List.filter_eq_nil_iff.mpr
      intro n hn
      rw [hfilter, dictGet_map_self f names n hn]
      simp
    simp only [hcne, ne_eq, not_false_eq_true, and_true, if_true, hnames]
    simp [hfilter, hnames]

/-- Witness for C7 at two fresh handles resolved by an identity server. -/
theorem C7_witness :
    ([3, 5] : List Nat) ≠ [] ∧ ([3, 5] : List Nat).Nodup ∧
    (user_lookup (fun c : List Nat => some (c.map (fun n => (n, (n : Int))))) []
      ([3, 5] : List Nat) false).1 = [(3, (3 : Int)), (5, 5)] ∧
    (user_lookup (fun c : List Nat => some (c.map (fun n => (n, (n : Int)))))
      [(3, (3 : Int)), (5, 5)] ([3, 5] : List Nat) true).2.2 = 0 := by
  have h := C7_user_lookup_batching.2.2 (fun n => (n : Int)) [3, 5] false
    (by decide) (by decide)
  refine ⟨by decide, by decide, h.1.trans (by decide), ?_⟩
  exact h.2.2

/-- C10: with a parsed target list, `__len__` totals to the target count
when positive and to 1 when the list is empty; with the `None` sentinel
from all-rejected handles, `len()` raises `TypeError`. -/
theorem C10_len_total_or_type_error :
    ∀ (input : List String),
      (∀ ts, initTargets input = some ts → 0 < ts.length →
        twitterLen (initTargets input) = Except.ok ts.length) ∧
      (initTargets input = some [] →
        twitterLen (initTargets input) = Except.ok 1) ∧
      (initTargets input = none →
        twitterLen (initTargets input) = Except.error "TypeError") := by
  intro input
  refine ⟨?_, ?_, ?_⟩
  · intro ts h hpos
    rw [h]
    simp [twitterLen, hpos]
  · intro h
    rw [h]
    rfl
  · intro h
    rw [h]
    rfl

/-- Witness for C10: one positive-count state, one empty-but-valid state,
one invalid-sentinel state. -/
theorem C10_witness :
    twitterLen (initTargets ["@alice", "bob"]) = Except.ok 2 ∧
    twitterLen (initTargets []) = Except.ok 1 ∧
    twitterLen (initTargets ["%%"]) = Except.error "TypeError" :=
  ⟨(C10_len_total_or_type_error ["@alice", "bob"]).1 ["alice", "bob"]
      (by decide) (by decide),
   (C10_len_total_or_type_error []).2.1 (by decide),
   (C10_len_total_or_type_error ["%%"]).2.2 (by decide)⟩

/-! ## Character-class and quoting lemmas for C9 -/

theorem unreserved_ne {c : Char} (d : Char) (h : isUnreservedChar c = true)
    (hd : isUnreservedChar d = false) : c ≠ d := by
  intro hcd
  rw [hcd, hd] at h
  exact Bool.false_ne_true h

theorem unreserved_not_mem (d : Char) (l : List Char)
    (hl : ∀ c ∈ l, isUnreservedChar c = true)
    (hd : isUnreservedChar d = false) : d ∉ l := by
  intro hmem
  exact unreserved_ne d (hl d hmem) hd rfl

theorem userChar_unreserved {c : Char} (h : isUserChar c = true) :
    isUnreservedChar c = true := by
  rcases Bool.or_eq_true_iff.mp h with h' | h'
  · simp [isUnreservedChar, h']
  · simp [isUnreservedChar, h']

theorem unreserved_not_whitespace {c : Char} (h : isUnreservedChar c = true) :
    c.isWhitespace = false := by
  by_contra hw
  rw [Bool.not_eq_false] at hw
  have hcase : c = ' ' ∨ c = '\t' ∨ c = '\r' ∨ c = '\n' := by
    simpa [Char.isWhitespace, or_assoc] using hw
  rcases hcase with h' | h' | h' | h' <;> rw [h'] at h <;> exact absurd h (by decide)

theorem pyQuote_keep (safe l : List Char)
    (h : ∀ c ∈ l, (isUnreservedChar c || safe.contains c) = true) :
    pyQuote safe l = l := by
  induction l with
  | nil => rfl
  | cons c rest ih =>
    rw [pyQuote, List.flatMap_cons, if_pos (h c (List.mem_cons_self c rest))]
    have := ih (fun d hd => h d (List.mem_cons_of_mem c hd))
    rw [pyQuote] at this
    rw [this]
    rfl

theorem pyQuote_unreserved (safe l : List Char)
    (h : ∀ c ∈ l, isUnreservedChar c = true) : pyQuote safe l = l :=
  pyQuote_keep safe l (fun c hc => by rw [h c hc]; rfl)

theorem pyQuotePlus_unreserved (l : List Char)
    (h : ∀ c ∈ l, isUnreservedChar c = true) : pyQuotePlus l = l := by
  induction l with
  | nil => rfl
  | cons c rest ih =>
    have hc := h c (List.mem_cons_self c rest)
    rw [pyQuotePlus, List.flatMap_cons,
      if_neg (unreserved_ne ' ' hc (by decide)), if_pos hc]
    have := ih (fun d hd => h d (List.mem_cons_of_mem c hd))
    rw [pyQuotePlus] at this
    rw [this]
    rfl

theorem pyUnquote_cons_ne (c : Char) (rest : List Char) (hc : c ≠ '%') :
    pyUnquote (c :: rest) = c :: pyUnquote rest := by
  match rest with
  | [] => simp [pyUnquote, hc]
  | [a] => simp [pyUnquote, hc]
  | a :: b :: r =>
    rw [pyUnquote.eq_def]
    simp [hc]

theorem pyUnquote_noPercent (l : List Char) (h : '%' ∉ l) : pyUnquote l = l := by
  induction l with
  | nil => rfl
  | cons c rest ih =>
    have hc : c ≠ '%' := fun hcc => h (hcc ▸ List.mem_cons_self c rest)
    rw [pyUnquote_cons_ne c rest hc, ih (fun hm => h (List.mem_cons_of_mem c hm))]

theorem plusMap_id (l : List Char) (hplus : '+' ∉ l) :
    l.map (fun c => if c = '+' then ' ' else c) = l := by
  induction l with
  | nil => rfl
  | cons c rest ih =>
    have hc : ¬ c = '+' := by
      intro hcc
      apply hplus
      rw [hcc]
      exact List.mem_cons_self _ _
    rw [List.map_cons, if_neg hc,
      ih (fun hm => hplus (List.mem_cons_of_mem c hm))]

theorem pyUnquotePlus_clean (l : List Char) (hp : '%' ∉ l) (hplus : '+' ∉ l) :
    pyUnquotePlus l = l := by
  rw [pyUnquotePlus, plusMap_id l hplus, pyUnquote_noPercent l hp]

/-! ## Splitting lemmas for C9 -/

theorem splitFirst_not_mem (sep : Char) (l : List Char) (h : sep ∉ l) :
    splitFirst sep l = none := by
  induction l with
  | nil => rfl
  | cons c rest ih =>
    have hc : ¬ c = sep := by
      intro hcc
      apply h
      rw [← hcc]
      exact List.mem_cons_self _ _
    rw [splitFirst, if_neg hc, ih (fun hm => h (List.mem_cons_of_mem c hm))]
    rfl

theorem splitFirst_append (sep : Char) (a b : List Char) (h : sep ∉ a) :
    splitFirst sep (a ++ sep :: b) = some (a, b) := by
  induction a with
  | nil => simp [splitFirst]
  | cons c rest ih =>
    have hc : ¬ c = sep := by
      intro hcc
      apply h
      rw [← hcc]
      exact List.mem_cons_self _ _
    rw [List.cons_append, splitFirst, if_neg hc,
      ih (fun hm => h (List.mem_cons_of_mem c hm))]
    rfl

theorem splitSep_exists_cons (sep : Char) (l : List Char) :
    ∃ f fs, splitSep sep l = f :: fs := by
  induction l with
  | nil => exact ⟨[], [], rfl⟩
  | cons c rest ih =>
    obtain ⟨f, fs, hf⟩ := ih
    by_cases hc : c = sep
    · refine ⟨[], f :: fs, ?_⟩
      rw [splitSep, hf]
      show (if c = sep then [] :: f :: fs else (c :: f) :: fs) = [] :: f :: fs
      rw [if_pos hc]
    · refine ⟨c :: f, fs, ?_⟩
      rw [splitSep, hf]
      show (if c = sep then [] :: f :: fs else (c :: f) :: fs) = (c :: f) :: fs
      rw [if_neg hc]

theorem splitSep_not_mem (sep : Char) (l : List Char) (h : sep ∉ l) :
    splitSep sep l = [l] := by
  induction l with
  | nil => rfl
  | cons c rest ih =>
    have hc : ¬ c = sep := by
      intro hcc
      apply h
      rw [← hcc]
      exact List.mem_cons_self _ _
    rw [splitSep, ih (fun hm => h (List.mem_cons_of_mem c hm))]
    show (if c = sep then [] :: rest :: [] else (c :: rest) :: []) = [c :: rest]
    rw [if_neg hc]

theorem splitSep_append (sep : Char) (a b : List Char) (h : sep ∉ a) :
    splitSep sep (a ++ sep :: b) = a :: splitSep sep b := by
  induction a with
  | nil =>
    obtain ⟨f, fs, hf⟩ := splitSep_exists_cons sep b
    rw [List.nil_append, splitSep, hf]
    show (if sep = sep then [] :: f :: fs else (sep :: f) :: fs)
      = [] :: f :: fs
    rw [if_pos rfl]
  | cons c rest ih =>
    have hc : ¬ c = sep := by
      intro hcc
      apply h
      rw [← hcc]
      exact List.mem_cons_self _ _
    have hih := ih (fun hm => h (List.mem_cons_of_mem c hm))
    rw [List.cons_append, splitSep, hih]
    show (if c = sep then [] :: rest :: splitSep sep b
      else (c :: rest) :: splitSep sep b) = (c :: rest) :: splitSep sep b
    rw [if_neg hc]

theorem splitSep_joinSlash (parts : List (List Char)) (hne : parts ≠ [])
    (h : ∀ p ∈ parts, '/' ∉ p) :
    splitSep '/' (joinSlash parts) = parts := by
  induction parts with
  | nil => exact absurd rfl hne
  | cons p rest ih =>
    cases rest with
    | nil =>
      rw [joinSlash]
      exact splitSep_not_mem '/' p (h p (List.mem_cons_self p []))
    | cons q r =>
      rw [joinSlash,
        splitSep_append '/' p _ (h p (List.mem_cons_self p (q :: r))),
        ih (by simp) (fun s hs => h s (List.mem_cons_of_mem p hs))]

/-! ## Strip / target / credential lemmas for C9 -/

theorem dropWhile_not_ws (l : List Char) (h : ∀ c ∈ l, c.isWhitespace = false) :
    l.dropWhile Char.isWhitespace = l := by
  cases l with
  | nil => rfl
  | cons c rest =>
    rw [List.dropWhile_cons, if_neg]
    rw [h c (List.mem_cons_self c rest)]
    exact Bool.false_ne_true

theorem pyStrip_id (l : List Char) (h : ∀ c ∈ l, c.isWhitespace = false) :
    pyStrip l = l := by
  rw [pyStrip, dropWhile_not_ws l h,
    dropWhile_not_ws l.reverse (fun c hc => h c (List.mem_reverse.mp hc)),
    List.reverse_reverse]

theorem mk_data (s : String) : String.mk s.data = s := rfl

theorem ne_empty_data {s : String} (h : s ≠ "") : s.data ≠ [] := by
  intro hd
  apply h
  rw [← mk_data s, hd]

theorem validateCredential_id (s : String) (hne : s ≠ "")
    (h : ∀ c ∈ s.data, isUnreservedChar c = true) :
    validateCredential (some s) = some s := by
  simp only [validateCredential]
  rw [pyStrip_id s.data (fun c hc => unreserved_not_whitespace (h c hc)),
    if_neg (ne_empty_data hne), mk_data]

theorem takeWhile_all (p : Char → Bool) (l : List Char)
    (h : ∀ c ∈ l, p c = true) : l.takeWhile p = l := by
  induction l with
  | nil => rfl
  | cons c rest ih =>
    rw [List.takeWhile_cons, if_pos (h c (List.mem_cons_self c rest)),
      ih (fun d hd => h d (List.mem_cons_of_mem c hd))]

theorem dropWhile_all (p : Char → Bool) (l : List Char)
    (h : ∀ c ∈ l, p c = true) : l.dropWhile p = [] := by
  induction l with
  | nil => rfl
  | cons c rest ih =>
    rw [List.dropWhile_cons, if_pos (h c (List.mem_cons_self c rest)),
      ih (fun d hd => h d (List.mem_cons_of_mem c hd))]

theorem initTargets_fold_all_valid (ts : List String) (g : String → String)
    (hg : ∀ t ∈ ts, isUserGroup (g t) = some t) :
    ∀ acc : List String,
      (ts.map g).foldl (fun (acc : Bool × List String) t =>
        match isUserGroup t with
        | some u => (acc.1, acc.2 ++ [u])
        | none => (true, acc.2)) (false, acc) = (false, acc ++ ts) := by
  induction ts with
  | nil => intro acc; simp
  | cons t rest ih =>
    intro acc
    rw [List.map_cons, List.foldl_cons]
    simp only [hg t (List.mem_cons_self t rest)]
    rw [ih (fun u hu => hg u (List.mem_cons_of_mem t hu)) (acc ++ [t])]
    simp

theorem isUserGroup_at_handle (t : String) (hne : t ≠ "")
    (h : ∀ c ∈ t.data, isUserChar c = true) :
    isUserGroup (String.mk ('@' :: t.data)) = some t := by
  show (if t.data.takeWhile isUserChar = [] then none
    else if t.data.dropWhile isUserChar = []
        ∨ t.data.dropWhile isUserChar = ['\n'] then
      some (String.mk (t.data.takeWhile isUserChar))
    else none) = some t
  rw [takeWhile_all isUserChar t.data h, dropWhile_all isUserChar t.data h,
    if_neg (ne_empty_data hne), if_pos (Or.inl rfl), mk_data]

theorem initTargets_handles (ts : List String) (hnodup : ts.Nodup)
    (hts : ∀ t ∈ ts, t ≠ "" ∧ ∀ c ∈ t.data, isUserChar c = true) :
    initTargets (ts.map (fun t => String.mk ('@' :: t.data))) = some ts := by
  have hinj : Function.Injective (fun t : String => String.mk ('@' :: t.data)) := by
    intro a b hab
    have h1 : '@' :: a.data = '@' :: b.data := congrArg String.data hab
    have h2 : a.data = b.data := by injection h1
    rw [← mk_data a, ← mk_data b, h2]
  simp only [initTargets]
  rw [parse_list_eq_self _ (hnodup.map hinj),
    initTargets_fold_all_valid ts _
      (fun t ht => isUserGroup_at_handle t (hts t ht).1 (hts t ht).2) []]
  simp

/-! ## URL parsing lemmas for C9 -/

theorem parseUrlBase_shape (K path query : List Char)
    (hKq : '?' ∉ K) (hpq : '?' ∉ path) (hsl : '/' ∉ K) (hat : '@' ∉ K) :
    parseUrlBase ('x' :: ':' :: '/' :: '/' :: ((K ++ '/' :: path) ++ '?' :: query))
      = some { schema := ['x'], host := K, user := none,
               tokens := split_path path, qsd := parseQsd query } := by
  have h1 : splitFirst ':'
      ('x' :: ':' :: '/' :: '/' :: ((K ++ '/' :: path) ++ '?' :: query))
      = some (['x'], '/' :: '/' :: ((K ++ '/' :: path) ++ '?' :: query)) := by
    rw [splitFirst, if_neg (by decide), splitFirst, if_pos rfl]
    rfl
  have h2 : splitFirst '?' ((K ++ '/' :: path) ++ '?' :: query)
      = some (K ++ '/' :: path, query) := by
    apply splitFirst_append
    intro hm
    rcases List.mem_append.mp hm with hmm | hmm
    · exact hKq hmm
    · rcases List.mem_cons.mp hmm with hmm' | hmm'
      · exact absurd hmm' (by decide)
      · exact hpq hmm'
  have h3 : splitFirst '/' (K ++ '/' :: path) = some (K, path) :=
    splitFirst_append '/' K path hsl
  have h4 : splitFirst '@' K = none := splitFirst_not_mem '@' K hat
  unfold parseUrlBase
  rw [h1]
  simp only [h2, h3, h4]

theorem splitFirst_eqData (key : String) (v : List Char)
    (hkey : '=' ∉ key.data) :
    splitFirst '=' (key.data ++ '=' :: v) = some (key.data, v) :=
  splitFirst_append '=' key.data v hkey

theorem parseQsd_three (M B C : List Char)
    (hM : ∀ c ∈ M, isUnreservedChar c = true)
    (hB : ∀ c ∈ B, isUnreservedChar c = true)
    (hC : ∀ c ∈ C, isUnreservedChar c = true) :
    parseQsd (("mode".data ++ '=' :: M)
      ++ '&' :: (("batch".data ++ '=' :: B)
      ++ '&' :: ("cache".data ++ '=' :: C)))
      = [("mode".data, M), ("batch".data, B), ("cache".data, C)] := by
  have hamp : ∀ (key : String) (v : List Char),
      (∀ c ∈ v, isUnreservedChar c = true) → '&' ∉ key.data →
      '&' ∉ key.data ++ '=' :: v := by
    intro key v hv hk hm
    rcases List.mem_append.mp hm with h | h
    · exact hk h
    · rcases List.mem_cons.mp h with h | h
      · exact absurd h (by decide)
      · exact unreserved_not_mem '&' v hv (by decide) h
  have hsplit : splitSep '&' (("mode".data ++ '=' :: M)
      ++ '&' :: (("batch".data ++ '=' :: B)
      ++ '&' :: ("cache".data ++ '=' :: C)))
      = [("mode".data ++ '=' :: M), ("batch".data ++ '=' :: B),
         ("cache".data ++ '=' :: C)] := by
    rw [splitSep_append '&' _ _ (hamp "mode" M hM (by decide)),
      splitSep_append '&' _ _ (hamp "batch" B hB (by decide)),
      splitSep_not_mem '&' _ (hamp "cache" C hC (by decide))]
  have hunq : ∀ (v : List Char), (∀ c ∈ v, isUnreservedChar c = true) →
      pyUnquotePlus v = v := by
    intro v hv
    exact pyUnquotePlus_clean v (unreserved_not_mem '%' v hv (by decide))
      (unreserved_not_mem '+' v hv (by decide))
  unfold parseQsd
  rw [hsplit]
  simp only [List.filterMap_cons,
    splitFirst_eqData "mode" M (by decide),
    splitFirst_eqData "batch" B (by decide),
    splitFirst_eqData "cache" C (by decide),
    hunq M hM, hunq B hB, hunq C hC]
  have hmq : pyUnquotePlus "mode".data = "mode".data := by decide
  have hbq : pyUnquotePlus "batch".data = "batch".data := by decide
  have hcq : pyUnquotePlus "cache".data = "cache".data := by decide
  rw [hmq, hbq, hcq]
  rfl

theorem qsdGet_three (M B C : List Char) :
    qsdGet [("mode".data, M), ("batch".data, B), ("cache".data, C)]
        "mode".data = some M ∧
    qsdGet [("mode".data, M), ("batch".data, B), ("cache".data, C)]
        "batch".data = some B ∧
    qsdGet [("mode".data, M), ("batch".data, B), ("cache".data, C)]
        "cache".data = some C ∧
    qsdGet [("mode".data, M), ("batch".data, B), ("cache".data, C)]
        "to".data = none := by
  refine ⟨?_, ?_, ?_, ?_⟩ <;>
    simp only [qsdGet, List.reverse_cons, List.reverse_nil, List.nil_append,
      List.cons_append, List.append_nil] <;>
    repeat first
      | rw [List.find?_cons_of_pos _ (by decide)]
      | rw [List.find?_cons_of_neg _ (by decide)]
      | rfl

theorem splitSep_three (S A T tp : List Char) (hS : '/' ∉ S) (hA : '/' ∉ A)
    (hT : '/' ∉ T) :
    splitSep '/' (S ++ '/' :: (A ++ '/' :: (T ++ '/' :: tp)))
      = S :: A :: T :: splitSep '/' tp := by
  rw [splitSep_append '/' S _ hS, splitSep_append '/' A _ hA,
    splitSep_append '/' T _ hT]

theorem map_quote_handles (ts : List String)
    (hts : ∀ t ∈ ts, ∀ c ∈ t.data, isUserChar c = true) :
    ts.map (fun t => pyQuote ['@'] ('@' :: t.data))
      = ts.map (fun t => '@' :: t.data) := by
  induction ts with
  | nil => rfl
  | cons t rest ih =>
    rw [List.map_cons, List.map_cons,
      ih (fun u hu => hts u (List.mem_cons_of_mem t hu))]
    congr 1
    apply pyQuote_keep
    intro c hc
    rcases List.mem_cons.mp hc with h | h
    · rw [h]
      rfl
    · rw [userChar_unreserved (hts t (List.mem_cons_self t rest) c h)]
      rfl

theorem buildUrl_canonical (ck cs ak asec mode : String) (cache batch : Bool)
    (ts : List String)
    (hck : ∀ c ∈ ck.data, isUnreservedChar c = true)
    (hcs : ∀ c ∈ cs.data, isUnreservedChar c = true)
    (hak : ∀ c ∈ ak.data, isUnreservedChar c = true)
    (hasec : ∀ c ∈ asec.data, isUnreservedChar c = true)
    (hmode : ∀ c ∈ mode.data, isUnreservedChar c = true)
    (hts : ∀ t ∈ ts, ∀ c ∈ t.data, isUserChar c = true) :
    buildUrl { ckey := ck, csecret := cs, akey := ak, asecret := asec,
               mode := mode, cache := cache, batch := batch,
               targets := some ts }
      = 'x' :: ':' :: '/' :: '/' ::
        ((ck.data ++ '/' :: (cs.data ++ '/' :: (ak.data ++ '/' :: (asec.data ++ '/' ::
          (if ts ≠ [] then joinSlash (ts.map (fun t => '@' :: t.data)) else [])))))
          ++ '?' ::
          (("mode".data ++ '=' :: mode.data)
            ++ '&' :: (("batch".data ++ '=' :: yesno batch)
            ++ '&' :: ("cache".data ++ '=' :: yesno cache)))) := by
  simp only [buildUrl]
  rw [pyQuote_unreserved [] ck.data hck, pyQuote_unreserved [] cs.data hcs,
    pyQuote_unreserved [] ak.data hak, pyQuote_unreserved [] asec.data hasec,
    pyQuotePlus_unreserved mode.data hmode, map_quote_handles ts hts]
  simp [List.cons_append, List.append_assoc]

theorem mem_joinSlash {c : Char} (parts : List (List Char)) :
    c ∈ joinSlash parts → c = '/' ∨ ∃ p ∈ parts, c ∈ p := by
  induction parts with
  | nil =>
    intro h
    simp [joinSlash] at h
  | cons p rest ih =>
    cases rest with
    | nil =>
      intro h
      rw [joinSlash] at h
      exact Or.inr ⟨p, List.mem_cons_self p [], h⟩
    | cons q r =>
      intro h
      rw [joinSlash] at h
      rcases List.mem_append.mp h with h | h
      · exact Or.inr ⟨p, List.mem_cons_self p (q :: r), h⟩
      rcases List.mem_cons.mp h with h | h
      · exact Or.inl h
      · rcases ih h with h' | ⟨p', hp', hc⟩
        · exact Or.inl h'
        · exact Or.inr ⟨p', List.mem_cons_of_mem p hp', hc⟩

theorem not_mem_targetsPart (d : Char) (ts : List String)
    (hts : ∀ t ∈ ts, ∀ c ∈ t.data, isUserChar c = true)
    (hd1 : d ≠ '/') (hd2 : d ≠ '@') (hd3 : isUserChar d = false) :
    d ∉ (if ts ≠ [] then joinSlash (ts.map (fun t => '@' :: t.data)) else []) := by
  by_cases h0 : ts = []
  · rw [if_neg (by simp [h0])]
    exact List.not_mem_nil d
  · rw [if_pos h0]
    intro hm
    rcases mem_joinSlash _ hm with h | ⟨p, hp, hc⟩
    · exact hd1 h
    · rcases List.mem_map.mp hp with ⟨t, ht, hpt⟩
      subst hpt
      rcases List.mem_cons.mp hc with h | h
      · exact hd2 h
      · rw [hts t ht d h] at hd3
        exact absurd hd3 (by decide)

theorem char_not_mem_path (d : Char) (S A T tp : List Char)
    (hS : d ∉ S) (hA : d ∉ A) (hT : d ∉ T) (htp : d ∉ tp) (hd : d ≠ '/') :
    d ∉ S ++ '/' :: (A ++ '/' :: (T ++ '/' :: tp)) := by
  intro hm
  rcases List.mem_append.mp hm with h | h
  · exact hS h
  rcases List.mem_cons.mp h with h | h
  · exact hd h
  rcases List.mem_append.mp h with h | h
  · exact hA h
  rcases List.mem_cons.mp h with h | h
  · exact hd h
  rcases List.mem_append.mp h with h | h
  · exact hT h
  rcases List.mem_cons.mp h with h | h
  · exact hd h
  · exact htp h

theorem map_unquote_handles (ts : List String)
    (hts : ∀ t ∈ ts, ∀ c ∈ t.data, isUserChar c = true) :
    (ts.map (fun t => '@' :: t.data)).map pyUnquote
      = ts.map (fun t => '@' :: t.data) := by
  induction ts with
  | nil => rfl
  | cons t rest ih =>
    rw [List.map_cons, List.map_cons,
      ih (fun u hu => hts u (List.mem_cons_of_mem t hu))]
    congr 1
    apply pyUnquote_noPercent
    intro hm
    rcases List.mem_cons.mp hm with h | h
    · exact absurd h (by decide)
    · have := hts t (List.mem_cons_self t rest) '%' h
      exact absurd this (by decide)

theorem parse_bool_yesno (b : Bool) (d : Bool) :
    parse_bool (String.mk (yesno b)) d = b := by
  cases b <;> cases d <;> decide

theorem mode_find (mode : String) (h : mode = "dm" ∨ mode = "tweet") :
    TWITTER_MESSAGE_MODES.find? (fun t => mode.data.isPrefixOf t.data)
      = some mode := by
  rcases h with h | h <;> subst h <;> decide

theorem mode_ne_empty (mode : String) (h : mode = "dm" ∨ mode = "tweet") :
    mode ≠ "" := by
  rcases h with h | h <;> subst h <;> decide

theorem mode_chars (mode : String) (h : mode = "dm" ∨ mode = "tweet") :
    ∀ c ∈ mode.data, isUnreservedChar c = true := by
  rcases h with h | h <;> subst h <;> decide

theorem yesno_chars (b : Bool) : ∀ c ∈ yesno b, isUnreservedChar c = true := by
  cases b <;> decide

theorem yesno_ne_empty (b : Bool) : yesno b ≠ [] := by
  cases b <;> decide

theorem map_mk_handles (ts : List String) :
    (ts.map (fun t => '@' :: t.data)).map String.mk
      = ts.map (fun t => String.mk ('@' :: t.data)) := by
  induction ts with
  | nil => rfl
  | cons t rest ih => simp only [List.map_cons, ih]

/-- C9: serializing a validly constructed notifier — non-sentinel target
state, credentials made of URL-unreserved characters, a canonical mode —
to its URL form and re-parsing it rebuilds the very same notifier: same
four credential secrets, same mode, same batch flag and the same target
list in the same order. -/
theorem C9_url_round_trip (n : Notifier) (ts : List String)
    (htargets : n.targets = some ts)
    (hck1 : n.ckey ≠ "") (hck2 : ∀ c ∈ n.ckey.data, isUnreservedChar c = true)
    (hcs1 : n.csecret ≠ "")
    (hcs2 : ∀ c ∈ n.csecret.data, isUnreservedChar c = true)
    (hak1 : n.akey ≠ "") (hak2 : ∀ c ∈ n.akey.data, isUnreservedChar c = true)
    (hax1 : n.asecret ≠ "")
    (hax2 : ∀ c ∈ n.asecret.data, isUnreservedChar c = true)
    (hmode : n.mode = "dm" ∨ n.mode = "tweet")
    (hnodup : ts.Nodup)
    (hts : ∀ t ∈ ts, t ≠ "" ∧ ∀ c ∈ t.data, isUserChar c = true) :
    roundTrip n = some n := by
  obtain ⟨ck, cs, ak, asec, mode, cache, batch, tgs⟩ := n
  have htg : tgs = some ts := htargets
  subst htg
  have h1 : ck ≠ "" := hck1
  have h2 : ∀ c ∈ ck.data, isUnreservedChar c = true := hck2
  have h3 : cs ≠ "" := hcs1
  have h4 : ∀ c ∈ cs.data, isUnreservedChar c = true := hcs2
  have h5 : ak ≠ "" := hak1
  have h6 : ∀ c ∈ ak.data, isUnreservedChar c = true := hak2
  have h7 : asec ≠ "" := hax1
  have h8 : ∀ c ∈ asec.data, isUnreservedChar c = true := hax2
  have hm : mode = "dm" ∨ mode = "tweet" := hmode
  have hts2 : ∀ t ∈ ts, ∀ c ∈ t.data, isUserChar c = true :=
    fun t ht => (hts t ht).2
  have hmc := mode_chars mode hm
  have hurl := buildUrl_canonical ck cs ak asec mode cache batch ts
    h2 h4 h6 h8 hmc hts2
  have hpq : '?' ∉ cs.data ++ '/' :: (ak.data ++ '/' :: (asec.data ++ '/' ::
      (if ts ≠ [] then joinSlash (ts.map (fun t => '@' :: t.data)) else []))) :=
    char_not_mem_path '?' cs.data ak.data asec.data _
      (unreserved_not_mem '?' cs.data h4 (by decide))
      (unreserved_not_mem '?' ak.data h6 (by decide))
      (unreserved_not_mem '?' asec.data h8 (by decide))
      (not_mem_targetsPart '?' ts hts2 (by decide) (by decide) (by decide))
      (by decide)
  have hbase := parseUrlBase_shape ck.data
    (cs.data ++ '/' :: (ak.data ++ '/' :: (asec.data ++ '/' ::
      (if ts ≠ [] then joinSlash (ts.map (fun t => '@' :: t.data)) else []))))
    (("mode".data ++ '=' :: mode.data)
      ++ '&' :: (("batch".data ++ '=' :: yesno batch)
      ++ '&' :: ("cache".data ++ '=' :: yesno cache)))
    (unreserved_not_mem '?' ck.data h2 (by decide)) hpq
    (unreserved_not_mem '/' ck.data h2 (by decide))
    (unreserved_not_mem '@' ck.data h2 (by decide))
  have hsplit : split_path (cs.data ++ '/' :: (ak.data ++ '/' :: (asec.data ++ '/' ::
      (if ts ≠ [] then joinSlash (ts.map (fun t => '@' :: t.data)) else []))))
      = cs.data :: ak.data :: asec.data :: ts.map (fun t => '@' :: t.data) := by
    rw [split_path, splitSep_three cs.data ak.data asec.data _
      (unreserved_not_mem '/' cs.data h4 (by decide))
      (unreserved_not_mem '/' ak.data h6 (by decide))
      (unreserved_not_mem '/' asec.data h8 (by decide))]
    by_cases h0 : ts = []
    · subst h0
      rw [if_neg (by simp)]
      simp only [List.map_nil, splitSep]
      rw [List.filter_cons_of_pos (by simpa using ne_empty_data h3),
        List.filter_cons_of_pos (by simpa using ne_empty_data h5),
        List.filter_cons_of_pos (by simpa using ne_empty_data h7),
        List.filter_cons_of_neg (by simp), List.filter_nil, List.map_cons,
        List.map_cons, List.map_cons, List.map_nil,
        pyUnquote_noPercent cs.data (unreserved_not_mem '%' cs.data h4 (by decide)),
        pyUnquote_noPercent ak.data (unreserved_not_mem '%' ak.data h6 (by decide)),
        pyUnquote_noPercent asec.data
          (unreserved_not_mem '%' asec.data h8 (by decide))]
    · rw [if_pos h0,
        splitSep_joinSlash (ts.map (fun t => '@' :: t.data)) (by simpa using h0)
          (by
            intro p hp
            rcases List.mem_map.mp hp with ⟨t, ht, hpt⟩
            subst hpt
            intro hmem
            rcases List.mem_cons.mp hmem with h' | h'
            · exact absurd h' (by decide)
            · have := hts2 t ht '/' h'
              exact absurd this (by decide))]
      rw [List.filter_cons_of_pos (by simpa using ne_empty_data h3),
        List.filter_cons_of_pos (by simpa using ne_empty_data h5),
        List.filter_cons_of_pos (by simpa using ne_empty_data h7)]
      rw [List.filter_eq_self.mpr (by
        intro p hp
        rcases List.mem_map.mp hp with ⟨t, ht, hpt⟩
        subst hpt
        simp)]
      rw [List.map_cons, List.map_cons, List.map_cons,
        pyUnquote_noPercent cs.data (unreserved_not_mem '%' cs.data h4 (by decide)),
        pyUnquote_noPercent ak.data (unreserved_not_mem '%' ak.data h6 (by decide)),
        pyUnquote_noPercent asec.data
          (unreserved_not_mem '%' asec.data h8 (by decide)),
        map_unquote_handles ts hts2]
  have hqsd := parseQsd_three mode.data (yesno batch) (yesno cache)
    hmc (yesno_chars batch) (yesno_chars cache)
  unfold roundTrip twitterParseUrl
  rw [hurl, hbase, Option.map_some']
  simp only [hsplit, hqsd, (qsdGet_three mode.data (yesno batch) (yesno cache)).1,
    (qsdGet_three mode.data (yesno batch) (yesno cache)).2.1,
    (qsdGet_three mode.data (yesno batch) (yesno cache)).2.2.1,
    (qsdGet_three mode.data (yesno batch) (yesno cache)).2.2.2]
  rw [if_pos (ne_empty_data (mode_ne_empty mode hm)),
    if_pos (yesno_ne_empty cache)]
  rw [pyUnquote_noPercent mode.data (unreserved_not_mem '%' mode.data hmc (by decide)),
    pyUnquote_noPercent ck.data (unreserved_not_mem '%' ck.data h2 (by decide)),
    mk_data, mk_data]
  simp only [List.get?_cons_zero, List.get?_cons_succ, List.drop_succ_cons,
    List.drop_zero, Option.map_some', mk_data, List.nil_append, List.append_nil,
    map_mk_handles, parse_bool_yesno, Option.some_bind]
  simp only [construct, validateCredential_id ck h1 h2,
    validateCredential_id cs h3 h4, validateCredential_id ak h5 h6,
    validateCredential_id asec h7 h8,
    if_neg (mode_ne_empty mode hm), mode_find mode hm,
    initTargets_handles ts hnodup hts, Option.getD_some]

/-- Witness for C9 at a concrete notifier with two targets. -/
theorem C9_witness :
    roundTrip { ckey := "k1", csecret := "s1", akey := "a1", asecret := "s2",
                mode := "dm", cache := true, batch := false,
                targets := some ["alice", "bob"] }
      = some { ckey := "k1", csecret := "s1", akey := "a1", asecret := "s2",
               mode := "dm", cache := true, batch := false,
               targets := some ["alice", "bob"] } :=
  C9_url_round_trip _ ["alice", "bob"] rfl (by decide) (by decide) (by decide)
    (by decide) (by decide) (by decide) (by decide) (by decide) (Or.inl rfl)
    (by decide) (by decide)

end Twitter
